import Mathlib

set_option maxHeartbeats 1000000

/-! Shallow embedding of `generate.py` (svg-model-compare): an orchestration
script that sends one prompt to many models, extracts an SVG fragment from
each free-form response, caches successes, and renders an HTML report.
Text is modelled as `List Char`; machine floats used only for wall-clock
durations are abstracted as `Nat` (no claim computes with them). -/

/-! ## Text utilities: Python regex behaviour used by `call_model` -/

/-- Case-insensitive character comparison, modelling `re.IGNORECASE` matching
for the ASCII patterns used by the script. -/
def lcEq (a b : Char) : Bool := a.toLower == b.toLower

/-- Case-insensitive test that `pat` occurs at the front of the text. -/
def ciMatch : List Char → List Char → Bool
  | [], _ => true
  | _ :: _, [] => false
  | p :: ps, c :: cs => lcEq c p && ciMatch ps cs

/-- Index of the leftmost case-insensitive occurrence of `pat`, as `re.search`
finds it. -/
def findCI (pat : List Char) : List Char → Option Nat
  | [] => if ciMatch pat [] then some 0 else none
  | c :: cs =>
    if ciMatch pat (c :: cs) then some 0
    else (findCI pat cs).map (fun n => n + 1)

/-- Python `\s` (whitespace class for `str` patterns), by code point. -/
def isPySpace (c : Char) : Bool :=
  decide (c.toNat = 32 ∨ (9 ≤ c.toNat ∧ c.toNat ≤ 13) ∨
    (28 ≤ c.toNat ∧ c.toNat ≤ 31) ∨ c.toNat = 133 ∨ c.toNat = 160 ∨
    c.toNat = 0x1680 ∨ (0x2000 ≤ c.toNat ∧ c.toNat ≤ 0x200a) ∨
    c.toNat = 0x2028 ∨ c.toNat = 0x2029 ∨ c.toNat = 0x202f ∨
    c.toNat = 0x205f ∨ c.toNat = 0x3000)

/-- Greedy `\s*` after a fence: drop the maximal run of whitespace.  The
trailing optional newline of the pattern can never consume anything after a
maximal whitespace run. -/
def dropSpaces (s : List Char) : List Char := s.dropWhile isPySpace

/-- Optional language tag of a fence, tried in the regex alternation order
`svg`, `xml`, `html` (case-sensitively, as in the source pattern). -/
def fenceTag (s : List Char) : List Char :=
  if ("svg").data.isPrefixOf s then s.drop 3
  else if ("xml").data.isPrefixOf s then s.drop 3
  else if ("html").data.isPrefixOf s then s.drop 4
  else s

/-- Three backticks, the fence delimiter. -/
def fenceMark : List Char := ("```").data

/-- Left-to-right scan of `re.sub` with pattern fence-marker,
optional language tag, then greedy whitespace; each match is replaced by the
empty string and scanning resumes after the match.  The fuel equals the
remaining length, which every step strictly decreases, so it never runs out
before the text is exhausted. -/
def stripFencesAux : Nat → List Char → List Char
  | 0, s => s
  | _, [] => []
  | fuel + 1, c :: cs =>
    if fenceMark.isPrefixOf (c :: cs) then
      stripFencesAux fuel (dropSpaces (fenceTag (cs.drop 2)))
    else
      c :: stripFencesAux fuel cs

/-- Model of `re.sub` removing markdown code fences from the response text. -/
def stripFences (s : List Char) : List Char := stripFencesAux s.length s

/-- The backtick character. -/
def backtick : Char := Char.ofNat 96

/-- Model of `str.replace` removing any remaining triple backticks:
left-to-right, non-overlapping. -/
def replaceTriple : List Char → List Char
  | [] => []
  | a :: b :: c :: rest =>
    if a == backtick && b == backtick && c == backtick then replaceTriple rest
    else a :: replaceTriple (b :: c :: rest)
  | a :: rest => a :: replaceTriple rest

/-- The cleaning pipeline applied to a response before SVG search: strip
fences, then remove remaining triple backticks. -/
def cleanContent (s : List Char) : List Char := replaceTriple (stripFences s)

/-! ## SVG extraction -/

/-- Opening tag fragment searched for. -/
def svgOpen : List Char := ("<svg").data

/-- Closing tag searched for. -/
def svgClose : List Char := ("</svg>").data

/-- Model of `re.search` with the non-greedy, case-insensitive SVG pattern
spanning newlines: the match starts at the leftmost case-insensitive `<svg`
and ends at the first subsequent case-insensitive `</svg>`. -/
def findSvg (s : List Char) : Option (List Char) :=
  match findCI svgOpen s with
  | none => none
  | some i =>
    match findCI svgClose (s.drop (i + 4)) with
    | none => none
    | some k => some ((s.drop i).take (k + 10))

/-- Full extraction applied to a parsed response: clean, then search. -/
def extract_svg (content : List Char) : Option (List Char) :=
  findSvg (cleanContent content)

/-! ## call_model -/

/-- Possible observable outcomes of one HTTP attempt inside `call_model`:
a successfully parsed body with an assistant text, an `HTTPError` with status
code and body, or any other exception (timeout, connection error, malformed
JSON, missing field) with its message. -/
inductive HttpOutcome where
  | ok (content : List Char)
  | httpError (code : Nat) (body : List Char)
  | exn (msg : List Char)

/-- One call result: the `(svg, elapsed, error)` part of the tuple returned
by `call_model` (the name component is carried as the map key). -/
structure ResVal where
  svg : Option (List Char)
  elapsed : Nat
  error : Option (List Char)
deriving DecidableEq, Repr

/-- Error message used when no SVG tag is found. -/
def noSvgMsg : List Char := ("No <svg> tag found in response").data

/-- Error message for an HTTP-level failure: status code and body truncated
to 200 characters. -/
def httpErrMsg (code : Nat) (body : List Char) : List Char :=
  ("HTTP ").data ++ (Nat.repr code).data ++ (": ").data ++ body.take 200

/-- Model of `call_model` after the HTTP attempt resolves to an outcome;
`elapsed` abstracts the measured wall-clock duration. -/
def call_model (o : HttpOutcome) (elapsed : Nat) : ResVal :=
  match o with
  | .ok content =>
    match extract_svg content with
    | some svg => ⟨some svg, elapsed, none⟩
    | none => ⟨none, elapsed, some noSvgMsg⟩
  | .httpError code body => ⟨none, elapsed, some (httpErrMsg code body)⟩
  | .exn msg => ⟨none, elapsed, some msg⟩

/-! ## Specification-side characterisation of the SVG search -/

/-- The pattern occurs (case-insensitively) at index `i` of `s`. -/
def occursCIAt (pat s : List Char) (i : Nat) : Prop :=
  ciMatch pat (s.drop i) = true

instance (pat s : List Char) (i : Nat) : Decidable (occursCIAt pat s i) := by
  unfold occursCIAt
  infer_instance

/-- Modelled from the spec wording, for comparison with the source-derived
`findSvg`: the output is the substring beginning at the leftmost
case-insensitive `<svg` and ending at the first subsequent case-insensitive
`</svg>`, both tags included. -/
def svgMatchSpec (s out : List Char) : Prop :=
  ∃ i k,
    occursCIAt svgOpen s i ∧ (∀ j, j < i → ¬ occursCIAt svgOpen s j) ∧
    occursCIAt svgClose s (i + 4 + k) ∧
    (∀ m, m < k → ¬ occursCIAt svgClose s (i + 4 + m)) ∧
    out = (s.drop i).take (k + 10)

/-! ## Static model and category tables -/

/-- The `(display_name, model_id, release_date_str)` table. -/
def MODELS : List (String × String × String) := [
  ("Claude Opus 4.6", "anthropic/claude-opus-4.6", "Feb 2026"),
  ("Claude Sonnet 4.6", "anthropic/claude-sonnet-4.6", "Feb 2026"),
  ("Claude Opus 4.5", "anthropic/claude-opus-4.5", "May 2025"),
  ("Claude Haiku 4.5", "anthropic/claude-haiku-4.5", "Jun 2025"),
  ("Claude Sonnet 4", "anthropic/claude-sonnet-4", "May 2025"),
  ("Claude Opus 4.1", "anthropic/claude-opus-4.1", "Aug 2025"),
  ("GPT-5.2", "openai/gpt-5.2", "Dec 2025"),
  ("GPT-5.1", "openai/gpt-5.1", "Nov 2025"),
  ("GPT-5", "openai/gpt-5", "Jun 2025"),
  ("GPT-5 Mini", "openai/gpt-5-mini", "Jun 2025"),
  ("GPT-4.1", "openai/gpt-4.1", "Apr 2025"),
  ("GPT-4.1 Mini", "openai/gpt-4.1-mini", "Apr 2025"),
  ("Gemini 3.1 Pro", "google/gemini-3.1-pro-preview", "Feb 2026"),
  ("Gemini 3 Pro", "google/gemini-3-pro-preview", "Nov 2025"),
  ("Gemini 3 Flash", "google/gemini-3-flash-preview", "Dec 2025"),
  ("Gemini 2.5 Pro", "google/gemini-2.5-pro", "Jun 2025"),
  ("Gemini 2.5 Flash", "google/gemini-2.5-flash", "Jun 2025"),
  ("Grok 4", "x-ai/grok-4", "Jul 2025"),
  ("Grok 4.1 Fast", "x-ai/grok-4.1-fast", "Nov 2025"),
  ("Grok 4 Fast", "x-ai/grok-4-fast", "Sep 2025"),
  ("Grok 3", "x-ai/grok-3", "Jun 2025"),
  ("Grok 3 Mini", "x-ai/grok-3-mini", "Jun 2025"),
  ("DeepSeek V3.2", "deepseek/deepseek-v3.2", "Oct 2025"),
  ("DeepSeek V3.1", "deepseek/deepseek-chat-v3.1", "Sep 2025"),
  ("DeepSeek R1", "deepseek/deepseek-r1", "Jan 2025"),
  ("Kimi K2.5", "moonshotai/kimi-k2.5", "Jan 2026"),
  ("Kimi K2", "moonshotai/kimi-k2", "Jul 2025"),
  ("MiniMax M2.5", "minimax/minimax-m2.5", "Feb 2026"),
  ("GLM-5", "z-ai/glm-5", "Feb 2026"),
  ("Qwen3 Max Thinking", "qwen/qwen3-max-thinking", "Feb 2026"),
  ("Qwen 3.5 397B", "qwen/qwen3.5-397b-a17b", "Feb 2026"),
  ("Qwen3 235B (Full)", "qwen/qwen3-235b-a22b", "Apr 2025"),
  ("Qwen3 32B", "qwen/qwen3-32b", "Apr 2025"),
  ("Qwen3 14B", "qwen/qwen3-14b", "Apr 2025"),
  ("Qwen3 8B", "qwen/qwen3-8b", "Apr 2025"),
  ("Qwen 2.5 7B", "qwen/qwen-2.5-7b-instruct", "Oct 2024")]

/-- The category table: `(label, ordered display names)`. -/
def CATEGORIES : List (String × List String) := [
  ("Anthropic (current + historical)", [
    "Claude Opus 4.6", "Claude Sonnet 4.6",
    "Claude Opus 4.5", "Claude Haiku 4.5",
    "Claude Opus 4.1",
    "Claude Sonnet 4"]),
  ("OpenAI (current + historical)", [
    "GPT-5.2", "GPT-5.1",
    "GPT-5", "GPT-5 Mini",
    "GPT-4.1", "GPT-4.1 Mini"]),
  ("Google", [
    "Gemini 3.1 Pro", "Gemini 3 Pro", "Gemini 3 Flash",
    "Gemini 2.5 Pro", "Gemini 2.5 Flash"]),
  ("xAI / Grok (current + historical)", [
    "Grok 4.1 Fast", "Grok 4", "Grok 4 Fast",
    "Grok 3", "Grok 3 Mini"]),
  ("Chinese Models (current + historical)", [
    "GLM-5", "MiniMax M2.5", "Kimi K2.5", "Kimi K2",
    "DeepSeek V3.2", "DeepSeek V3.1", "DeepSeek R1"]),
  ("Qwen -- Full to Small", [
    "Qwen3 Max Thinking", "Qwen 3.5 397B",
    "Qwen3 235B (Full)", "Qwen3 32B", "Qwen3 14B", "Qwen3 8B",
    "Qwen 2.5 7B"])]

/-- Mapping `display_name -> model_id` built in `main`. -/
def model_map : List (String × String) :=
  MODELS.map (fun t => (t.1, t.2.1))

/-- Mapping `display_name -> release_date_str` built in `main`. -/
def model_dates : List (String × String) :=
  MODELS.map (fun t => (t.1, t.2.2))

/-! ## Cache and main orchestration -/

/-- A persisted cache entry: the JSON object `{svg: ..., elapsed: ...}`.
The `svg` field is optional so that an entry with a missing field can be
modelled; an empty string models a falsy present field. -/
structure CacheEntry where
  svg : Option (List Char)
  elapsed : Nat
deriving DecidableEq, Repr

/-- The cache store: a JSON object mapping display names to entries,
modelled as an association list with Python dict semantics. -/
abbrev Cache : Type := List (String × CacheEntry)

/-- Python truthiness of an optional string: present and non-empty. -/
def strTruthy : Option (List Char) → Bool
  | some s => !s.isEmpty
  | none => false

/-- The guard `name in cache and cache[name].get("svg")` of `main`. -/
def isHit (cache : Cache) (name : String) : Bool :=
  match List.lookup name cache with
  | some e => strTruthy e.svg
  | none => false

/-- The cached-result tuple `(cache[name]["svg"], cache[name]["elapsed"],
None)` placed into `results` for a cache hit. -/
def hitVal (cache : Cache) (name : String) : ResVal :=
  match List.lookup name cache with
  | some e => ⟨e.svg, e.elapsed, none⟩
  | none => ⟨none, 0, none⟩

/-- Python dict assignment `d[k] = v` on an association list: overwrite in
place if the key is present (keys are unique in a dict), else append. -/
def setKey {α : Type} : List (String × α) → String → α → List (String × α)
  | [], k, v => [(k, v)]
  | q :: t, k, v => if q.1 == k then (k, v) :: t else q :: setKey t k v

/-- The partition loop of `main`: walk `model_map` in declaration order,
sending cache hits to `results` and everything else to `to_call`. -/
def partitionModels (cache : Cache) :
    List (String × ResVal) × List (String × String) :=
  model_map.foldl (fun st p =>
    match List.lookup p.1 cache with
    | some e =>
      if strTruthy e.svg then (st.1 ++ [(p.1, ⟨e.svg, e.elapsed, none⟩)], st.2)
      else (st.1, st.2 ++ [p])
    | none => (st.1, st.2 ++ [p])) ([], [])

/-- The models that still need a network call. -/
def to_call (cache : Cache) : List (String × String) :=
  (partitionModels cache).2

/-- The cache-hit results seeded into the result map. -/
def cachedResults (cache : Cache) : List (String × ResVal) :=
  (partitionModels cache).1

/-- The guard `if svg and not error` deciding whether a fresh result is
written into the cache. -/
def cacheCond (r : ResVal) : Bool :=
  strTruthy r.svg && !(strTruthy r.error)

/-- The `as_completed` collection loop of `main`: for each completed call (in
an arbitrary completion order `ord`), store the result in the result map and,
when it succeeded, write the cache entry.  `net` gives the `ResVal` that
`call_model` returns for each display name; keys are pairwise disjoint, so
the completion order does not change any lookup. -/
def collectLoop (net : String → ResVal) (ord : List (String × String))
    (st : List (String × ResVal) × Cache) : List (String × ResVal) × Cache :=
  ord.foldl (fun st p =>
    (setKey st.1 p.1 (net p.1),
      if cacheCond (net p.1) then
        setKey st.2 p.1 ⟨(net p.1).svg, (net p.1).elapsed⟩
      else st.2)) st

/-- Outcome of one `main` run: the merged result map used by the report, the
cache contents on disk afterwards, and whether `save_cache` was invoked. -/
structure RunOut where
  results : List (String × ResVal)
  cacheOut : Cache
  saved : Bool

/-- Model of `main` from cache load to cache save: partition the model table
by cache hit, dispatch the rest (completion order `ord`), fold results and
successful entries back in, and save exactly when any call was dispatched.
Report building and console output consume `results` afterwards. -/
def runMain (cache : Cache) (net : String → ResVal)
    (ord : List (String × String)) : RunOut :=
  if (partitionModels cache).2.isEmpty then
    ⟨(partitionModels cache).1, cache, false⟩
  else
    ⟨(collectLoop net ord ((partitionModels cache).1, cache)).1,
      (collectLoop net ord ((partitionModels cache).1, cache)).2, true⟩

/-! ## Report builder -/

/-- One card of the report: header data plus either an error panel or the
embedded svg container. -/
structure Card where
  name : String
  date : String
  elapsed : Nat
  isErr : Bool
  body : List Char
deriving DecidableEq, Repr

/-- Python rendering of an optional string into an f-string slot. -/
def renderOpt : Option (List Char) → List Char
  | some s => s
  | none => ("None").data

/-- Build one card from a present result entry, mirroring the error-panel /
svg-container choice (`if error:` uses truthiness). -/
def mkCard (name : String) (r : ResVal) : Card :=
  if strTruthy r.error then
    ⟨name, (List.lookup name model_dates).getD "", r.elapsed, true,
      renderOpt r.error⟩
  else
    ⟨name, (List.lookup name model_dates).getD "", r.elapsed, false,
      renderOpt r.svg⟩

/-- The inner card loop of `build_html` for one category: names with no
entry in the result map are skipped. -/
def build_cards (results : List (String × ResVal)) (names : List String) :
    List Card :=
  names.foldl (fun acc name =>
    match List.lookup name results with
    | none => acc
    | some r => acc ++ [mkCard name r]) []

/-- The outer section loop of `build_html`, in category declaration order. -/
def build_sections (results : List (String × ResVal)) :
    List (String × List Card) :=
  CATEGORIES.foldl (fun acc c => acc ++ [(c.1, build_cards results c.2)]) []

/-- The total displayed in the report subtitle: `len(results)`. -/
def report_total (results : List (String × ResVal)) : Nat :=
  results.length

/-- The success count displayed in the report subtitle:
`sum(1 for v in results.values() if v[2] is None)`. -/
def report_success (results : List (String × ResVal)) : Nat :=
  results.countP (fun p => (p.2.error).isNone)

/-- Modelled from the spec wording, for comparison with the source-derived
`build_sections`: categories in declaration order, names within a category
in the category's order, absent names skipped. -/
def orderedReportSpec (results : List (String × ResVal)) :
    List (String × List Card) :=
  CATEGORIES.map (fun c =>
    (c.1, c.2.filterMap (fun n => (List.lookup n results).map (mkCard n))))

/-- All display names mentioned by the category table. -/
def allCategoryNames : List String :=
  (CATEGORIES.map (fun c => c.2)).flatten


theorem occursCIAt_nil (pat : List Char) (j : Nat) :
    occursCIAt pat [] j ↔ ciMatch pat [] = true := by
  unfold occursCIAt
  rw [List.drop_nil]

theorem occursCIAt_zero (pat s : List Char) :
    occursCIAt pat s 0 ↔ ciMatch pat s = true := by
  unfold occursCIAt
  rw [List.drop_zero]

theorem occursCIAt_cons_succ (pat : List Char) (c : Char) (cs : List Char)
    (j : Nat) : occursCIAt pat (c :: cs) (j + 1) ↔ occursCIAt pat cs j := by
  unfold occursCIAt
  rw [List.drop_succ_cons]

theorem occursCIAt_drop (pat s : List Char) (d k : Nat) :
    occursCIAt pat (s.drop d) k ↔ occursCIAt pat s (d + k) := by
  unfold occursCIAt
  rw [List.drop_drop]

/-- Correctness of the search: `findCI` returns exactly the leftmost
occurrence index of the pattern. -/
theorem findCI_eq_some_iff (pat : List Char) (s : List Char) (i : Nat) :
    findCI pat s = some i ↔
      (occursCIAt pat s i ∧ ∀ j, j < i → ¬ occursCIAt pat s j) := by
  induction s generalizing i with
  | nil =>
    by_cases h : ciMatch pat [] = true
    · simp only [findCI]
      rw [if_pos h]
      constructor
      · intro hi
        have hi0 : i = 0 := by
          have := (Option.some.injEq 0 i).mp hi
          omega
        subst hi0
        refine ⟨(occursCIAt_nil pat 0).mpr h, fun j hj => ?_⟩
        exact absurd hj (by omega)
      · rintro ⟨-, hmin⟩
        by_contra hne
        have hi0 : 0 < i := by
          rcases Nat.eq_zero_or_pos i with h0 | h0
          · exact absurd (by rw [h0]) hne
          · exact h0
        exact hmin 0 hi0 ((occursCIAt_nil pat 0).mpr h)
    · simp only [findCI]
      rw [if_neg h]
      constructor
      · intro hx
        exact Option.noConfusion hx
      · rintro ⟨hocc, -⟩
        exact absurd ((occursCIAt_nil pat i).mp hocc) h
  | cons c cs ih =>
    by_cases h : ciMatch pat (c :: cs) = true
    · simp only [findCI]
      rw [if_pos h]
      constructor
      · intro hi
        have hi0 : i = 0 := by
          have := (Option.some.injEq 0 i).mp hi
          omega
        subst hi0
        refine ⟨(occursCIAt_zero pat (c :: cs)).mpr h, fun j hj => ?_⟩
        exact absurd hj (by omega)
      · rintro ⟨-, hmin⟩
        by_contra hne
        have hi0 : 0 < i := by
          rcases Nat.eq_zero_or_pos i with h0 | h0
          · exact absurd (by rw [h0]) hne
          · exact h0
        exact hmin 0 hi0 ((occursCIAt_zero pat (c :: cs)).mpr h)
    · simp only [findCI]
      rw [if_neg h, Option.map_eq_some']
      constructor
      · rintro ⟨k, hk, rfl⟩
        obtain ⟨hocc, hmin⟩ := (ih k).mp hk
        refine ⟨(occursCIAt_cons_succ pat c cs k).mpr hocc, fun j hj => ?_⟩
        cases j with
        | zero =>
          intro hx
          exact h ((occursCIAt_zero pat (c :: cs)).mp hx)
        | succ m =>
          rw [occursCIAt_cons_succ]
          exact hmin m (by omega)
      · rintro ⟨hocc, hmin⟩
        cases i with
        | zero =>
          exact absurd ((occursCIAt_zero pat (c :: cs)).mp hocc) h
        | succ k =>
          refine ⟨k, (ih k).mpr ⟨(occursCIAt_cons_succ pat c cs k).mp hocc,
            fun m hm => ?_⟩, rfl⟩
          have := hmin (m + 1) (by omega)
          rw [occursCIAt_cons_succ] at this
          exact this

/-- Failure of the search: `findCI` returns `none` exactly when the pattern
occurs nowhere. -/
theorem findCI_eq_none_iff (pat : List Char) (s : List Char) :
    findCI pat s = none ↔ ∀ j, ¬ occursCIAt pat s j := by
  constructor
  · intro hn j hocc
    have hex : ∃ n, occursCIAt pat s n := ⟨j, hocc⟩
    have hfind : findCI pat s = some (Nat.find hex) :=
      (findCI_eq_some_iff pat s (Nat.find hex)).mpr
        ⟨Nat.find_spec hex, fun m hm => Nat.find_min hex hm⟩
    rw [hn] at hfind
    exact Option.noConfusion hfind
  · intro h
    cases hf : findCI pat s with
    | none => rfl
    | some i => exact absurd ((findCI_eq_some_iff pat s i).mp hf).1 (h i)

/-- Refinement: the code's search agrees with the spec-side description of
the first non-greedy case-insensitive match. -/
theorem findSvg_eq_some_iff (s out : List Char) :
    findSvg s = some out ↔ svgMatchSpec s out := by
  constructor
  · intro h
    cases ho : findCI svgOpen s with
    | none =>
      simp only [findSvg, ho] at h
      exact Option.noConfusion h
    | some i =>
      cases hc : findCI svgClose (s.drop (i + 4)) with
      | none =>
        simp only [findSvg, ho, hc] at h
        exact Option.noConfusion h
      | some k =>
        simp only [findSvg, ho, hc, Option.some.injEq] at h
        obtain ⟨hoi, homin⟩ := (findCI_eq_some_iff svgOpen s i).mp ho
        obtain ⟨hci, hcmin⟩ :=
          (findCI_eq_some_iff svgClose (s.drop (i + 4)) k).mp hc
        refine ⟨i, k, hoi, homin,
          (occursCIAt_drop svgClose s (i + 4) k).mp hci,
          fun m hm hx => hcmin m hm
            ((occursCIAt_drop svgClose s (i + 4) m).mpr hx), h.symm⟩
  · rintro ⟨i, k, hoi, homin, hci, hcmin, rfl⟩
    have ho : findCI svgOpen s = some i :=
      (findCI_eq_some_iff svgOpen s i).mpr ⟨hoi, homin⟩
    have hc : findCI svgClose (s.drop (i + 4)) = some k :=
      (findCI_eq_some_iff svgClose (s.drop (i + 4)) k).mpr
        ⟨(occursCIAt_drop svgClose s (i + 4) k).mpr hci,
          fun m hm hx => hcmin m hm
            ((occursCIAt_drop svgClose s (i + 4) m).mp hx)⟩
    simp only [findSvg, ho, hc]

/-- C1: SVG extraction first strips markdown code fences and then returns the
first substring beginning at the leftmost case-insensitive `<svg` and ending
at the first subsequent case-insensitive `</svg>`, both tags included,
spanning newlines; on the spec's example input (with the fenced block) it
returns exactly `<svg><circle/></svg>`, and upper-case `<SVG>...</SVG>` is
extracted identically to lower-case tags. -/
theorem c1_svg_extraction :
    (∀ s, extract_svg s = findSvg (cleanContent s))
    ∧ (∀ s out, extract_svg s = some out ↔ svgMatchSpec (cleanContent s) out)
    ∧ extract_svg (("here").data ++ [Char.ofNat 39] ++
        ("s your svg: ```svg\n<svg><circle/></svg>\n``` thanks").data) =
        some (("<svg><circle/></svg>").data)
    ∧ extract_svg (("before <SVG>\n<circle/>\n</SVG> after").data) =
        some (("<SVG>\n<circle/>\n</SVG>").data)
    ∧ extract_svg (("before <svg>\n<circle/>\n</svg> after").data) =
        some (("<svg>\n<circle/>\n</svg>").data) :=
  ⟨fun _ => rfl, fun s out => findSvg_eq_some_iff (cleanContent s) out,
    by decide, by decide, by decide⟩

theorem c1_svg_extraction_witness :
    svgMatchSpec (cleanContent (("<svg>a</svg>").data)) (("<svg>a</svg>").data) :=
  (c1_svg_extraction.2.1 (("<svg>a</svg>").data) (("<svg>a</svg>").data)).mp
    (by decide)

/-- C3: every call result has exactly one of output text and error message
present: the output is present precisely when the error is absent, so the
case where both are null cannot occur. -/
theorem c3_call_result_exclusive :
    ∀ (o : HttpOutcome) (elapsed : Nat),
      ((call_model o elapsed).svg).isSome =
        !((call_model o elapsed).error).isSome := by
  intro o elapsed
  cases o with
  | ok content =>
    cases h : extract_svg content <;> simp [call_model, h]
  | httpError code body => simp [call_model]
  | exn msg => simp [call_model]

/-- C4: a successfully parsed response whose cleaned text contains no
SVG fragment yields a null output and exactly the error message
`No <svg> tag found in response`, even though the HTTP call succeeded. -/
theorem c4_no_svg_error :
    ∀ (content : List Char) (elapsed : Nat),
      findSvg (cleanContent content) = none →
      call_model (.ok content) elapsed =
        ⟨none, elapsed, some (("No <svg> tag found in response").data)⟩ := by
  intro content elapsed h
  simp [call_model, extract_svg, h, noSvgMsg]

theorem c4_no_svg_error_witness :
    call_model (.ok (("no tags here").data)) 7 =
      ⟨none, 7, some (("No <svg> tag found in response").data)⟩ :=
  c4_no_svg_error (("no tags here").data) 7 (by decide)

/-- C9: on an HTTP-level failure the result's output is null and the error
message is the status code followed by the response body truncated to at most
200 characters; the single-attempt `call_model` performs no retry. -/
theorem c9_http_error :
    ∀ (code : Nat) (body : List Char) (elapsed : Nat),
      call_model (.httpError code body) elapsed =
        ⟨none, elapsed, some (("HTTP ").data ++ (Nat.repr code).data ++
          (": ").data ++ body.take 200)⟩
      ∧ (body.take 200).length ≤ 200 := by
  intro code body elapsed
  refine ⟨rfl, ?_⟩
  exact List.length_take_le 200 body

/-! ## Dictionary lemmas for `setKey` -/

theorem lookup_setKey_self {α : Type} :
    ∀ (l : List (String × α)) (k : String) (v : α),
      List.lookup k (setKey l k v) = some v := by
  intro l
  induction l with
  | nil =>
    intro k v
    simp [setKey, List.lookup]
  | cons q t ih =>
    intro k v
    by_cases h : (q.1 == k) = true
    · simp [setKey, h, List.lookup]
    · rw [Bool.not_eq_true] at h
      have h2 : (k == q.1) = false := by
        rw [beq_eq_false_iff_ne] at h ⊢
        exact fun hx => h hx.symm
      simp only [setKey, h, Bool.false_eq_true, if_false, List.lookup, h2]
      exact ih k v

theorem lookup_setKey_ne {α : Type} :
    ∀ (l : List (String × α)) (k k' : String) (v : α), k' ≠ k →
      List.lookup k' (setKey l k v) = List.lookup k' l := by
  intro l
  induction l with
  | nil =>
    intro k k' v hne
    have hb : (k' == k) = false := beq_eq_false_iff_ne.mpr hne
    simp [setKey, List.lookup, hb]
  | cons q t ih =>
    intro k k' v hne
    have hb : (k' == k) = false := beq_eq_false_iff_ne.mpr hne
    by_cases h : (q.1 == k) = true
    · have hq : q.1 = k := eq_of_beq h
      simp [setKey, h, List.lookup, hb, hq]
    · rw [Bool.not_eq_true] at h
      simp only [setKey, h, Bool.false_eq_true, if_false, List.lookup]
      by_cases hk : (k' == q.1) = true
      · simp only [hk]
      · rw [Bool.not_eq_true] at hk
        simp only [hk]
        exact ih k k' v hne

theorem setKey_append {α : Type} :
    ∀ (l : List (String × α)) (k : String) (v : α), k ∉ l.map Prod.fst →
      setKey l k v = l ++ [(k, v)] := by
  intro l
  induction l with
  | nil =>
    intro k v h
    rfl
  | cons q t ih =>
    intro k v h
    simp only [List.map_cons, List.mem_cons, not_or] at h
    have hb : (q.1 == k) = false := by
      simp only [beq_eq_false_iff_ne, ne_eq]
      exact fun hx => h.1 hx.symm
    simp only [setKey, hb, Bool.false_eq_true, if_false, List.cons_append,
      List.cons.injEq, true_and]
    exact ih k v h.2

/-! ## Characterisation of the partition loop -/

theorem partitionFold_eq (cache : Cache) :
    ∀ (l : List (String × String)) (r : List (String × ResVal))
      (t : List (String × String)),
      l.foldl (fun st p =>
        match List.lookup p.1 cache with
        | some e =>
          if strTruthy e.svg then
            (st.1 ++ [(p.1, ⟨e.svg, e.elapsed, none⟩)], st.2)
          else (st.1, st.2 ++ [p])
        | none => (st.1, st.2 ++ [p])) (r, t) =
      (r ++ l.filterMap (fun p =>
          if isHit cache p.1 then some (p.1, hitVal cache p.1) else none),
       t ++ l.filter (fun p => !(isHit cache p.1))) := by
  intro l
  induction l with
  | nil =>
    intro r t
    simp
  | cons p ps ih =>
    intro r t
    rw [List.foldl_cons]
    cases hl : List.lookup p.1 cache with
    | none =>
      have hhit : isHit cache p.1 = false := by
        simp [isHit, hl]
      simp only [hl]
      rw [ih]
      simp [hhit, List.filterMap_cons, List.filter_cons]
    | some e =>
      by_cases hsvg : strTruthy e.svg = true
      · have hhit : isHit cache p.1 = true := by
          simp [isHit, hl, hsvg]
        have hv : hitVal cache p.1 = ⟨e.svg, e.elapsed, none⟩ := by
          simp [hitVal, hl]
        simp only [hl, hsvg, if_true]
        rw [ih]
        simp [hhit, hv, List.filterMap_cons, List.filter_cons]
      · have hhit : isHit cache p.1 = false := by
          rw [Bool.not_eq_true] at hsvg
          simp [isHit, hl, hsvg]
        rw [Bool.not_eq_true] at hsvg
        simp only [hl, hsvg, Bool.false_eq_true, if_false]
        rw [ih]
        simp [hhit, List.filterMap_cons, List.filter_cons]

theorem partitionModels_eq (cache : Cache) :
    partitionModels cache =
      (model_map.filterMap (fun p =>
          if isHit cache p.1 then some (p.1, hitVal cache p.1) else none),
       model_map.filter (fun p => !(isHit cache p.1))) := by
  unfold partitionModels
  rw [partitionFold_eq]
  simp

theorem to_call_eq (cache : Cache) :
    to_call cache = model_map.filter (fun p => !(isHit cache p.1)) := by
  unfold to_call
  rw [partitionModels_eq]

theorem cachedResults_eq (cache : Cache) :
    cachedResults cache = model_map.filterMap (fun p =>
      if isHit cache p.1 then some (p.1, hitVal cache p.1) else none) := by
  unfold cachedResults
  rw [partitionModels_eq]

theorem mem_to_call_keys (cache : Cache) (name : String) :
    name ∈ (to_call cache).map Prod.fst ↔
      (name ∈ model_map.map Prod.fst ∧ isHit cache name = false) := by
  rw [to_call_eq]
  constructor
  · intro h
    rcases List.mem_map.mp h with ⟨p, hp, rfl⟩
    rcases List.mem_filter.mp hp with ⟨hmem, hcond⟩
    refine ⟨List.mem_map.mpr ⟨p, hmem, rfl⟩, ?_⟩
    simpa using hcond
  · rintro ⟨hmem, hmiss⟩
    rcases List.mem_map.mp hmem with ⟨p, hp, rfl⟩
    exact List.mem_map.mpr ⟨p, List.mem_filter.mpr ⟨hp, by simp [hmiss]⟩, rfl⟩

theorem mem_cachedResults_keys (cache : Cache) (name : String) :
    name ∈ (cachedResults cache).map Prod.fst ↔
      (name ∈ model_map.map Prod.fst ∧ isHit cache name = true) := by
  rw [cachedResults_eq]
  constructor
  · intro h
    rcases List.mem_map.mp h with ⟨q, hq, rfl⟩
    rcases List.mem_filterMap.mp hq with ⟨p, hp, hf⟩
    by_cases hh : isHit cache p.1 = true
    · rw [if_pos hh] at hf
      have hq' : (p.1, hitVal cache p.1) = q := Option.some_inj.mp hf
      rw [← hq']
      exact ⟨List.mem_map.mpr ⟨p, hp, rfl⟩, hh⟩
    · rw [if_neg hh] at hf
      exact Option.noConfusion hf
  · rintro ⟨hmem, hhit⟩
    rcases List.mem_map.mp hmem with ⟨p, hp, rfl⟩
    refine List.mem_map.mpr ⟨(p.1, hitVal cache p.1),
      List.mem_filterMap.mpr ⟨p, hp, ?_⟩, rfl⟩
    rw [if_pos hhit]

theorem cachedResults_error_none (cache : Cache) :
    ∀ q ∈ cachedResults cache, q.2.error = none := by
  intro q hq
  rw [cachedResults_eq] at hq
  rcases List.mem_filterMap.mp hq with ⟨p, hp, hf⟩
  by_cases hh : isHit cache p.1 = true
  · rw [if_pos hh] at hf
    have hq' : (p.1, hitVal cache p.1) = q := Option.some_inj.mp hf
    rw [← hq']
    show (hitVal cache p.1).error = none
    unfold hitVal
    cases List.lookup p.1 cache <;> rfl
  · rw [if_neg hh] at hf
    exact Option.noConfusion hf

theorem lookup_filterMap_hits (cache : Cache) :
    ∀ (l : List (String × String)) (name : String),
      List.lookup name (l.filterMap (fun p =>
        if isHit cache p.1 then some (p.1, hitVal cache p.1) else none)) =
      if name ∈ l.map Prod.fst ∧ isHit cache name = true then
        some (hitVal cache name)
      else none := by
  intro l
  induction l with
  | nil =>
    intro name
    simp
  | cons p ps ih =>
    intro name
    by_cases hh : isHit cache p.1 = true
    · simp only [List.filterMap_cons, if_pos hh]
      by_cases hp : name = p.1
      · subst hp
        simp only [List.lookup, beq_self_eq_true]
        rw [if_pos ⟨by simp, hh⟩]
      · have hb : (name == p.1) = false := beq_eq_false_iff_ne.mpr hp
        simp only [List.lookup, hb]
        rw [ih]
        by_cases hcond : name ∈ ps.map Prod.fst ∧ isHit cache name = true
        · rw [if_pos hcond, if_pos ⟨by simp [hcond.1], hcond.2⟩]
        · rw [if_neg hcond, if_neg ?_]
          rintro ⟨hm, hi⟩
          rw [List.map_cons] at hm
          rcases List.mem_cons.mp hm with h1 | h1
          · exact hp h1
          · exact hcond ⟨h1, hi⟩
    · simp only [List.filterMap_cons, if_neg hh]
      rw [ih]
      by_cases hp : name = p.1
      · subst hp
        rw [Bool.not_eq_true] at hh
        rw [if_neg (fun hx => by rw [hx.2] at hh; exact Bool.noConfusion hh),
          if_neg (fun hx => by rw [hx.2] at hh; exact Bool.noConfusion hh)]
      · by_cases hcond : name ∈ ps.map Prod.fst ∧ isHit cache name = true
        · rw [if_pos hcond, if_pos ⟨by simp [hcond.1], hcond.2⟩]
        · rw [if_neg hcond, if_neg ?_]
          rintro ⟨hm, hi⟩
          rw [List.map_cons] at hm
          rcases List.mem_cons.mp hm with h1 | h1
          · exact hp h1
          · exact hcond ⟨h1, hi⟩

theorem lookup_cachedResults (cache : Cache) (name : String) :
    List.lookup name (cachedResults cache) =
      if name ∈ model_map.map Prod.fst ∧ isHit cache name = true then
        some (hitVal cache name)
      else none := by
  rw [cachedResults_eq]
  exact lookup_filterMap_hits cache model_map name

/-! ## Decidable facts about the static tables -/

theorem model_names_nodup : (model_map.map Prod.fst).Nodup := by decide

/-! ## Characterisation of the collection loop and of `runMain` -/

theorem collect_results_lookup (net : String → ResVal) :
    ∀ (ord : List (String × String)) (st : List (String × ResVal) × Cache)
      (name : String),
      List.lookup name (collectLoop net ord st).1 =
        if name ∈ ord.map Prod.fst then some (net name)
        else List.lookup name st.1 := by
  intro ord
  induction ord with
  | nil =>
    intro st name
    simp [collectLoop]
  | cons p ps ih =>
    intro st name
    have hstep : collectLoop net (p :: ps) st =
        collectLoop net ps (setKey st.1 p.1 (net p.1),
          if cacheCond (net p.1) then
            setKey st.2 p.1 ⟨(net p.1).svg, (net p.1).elapsed⟩
          else st.2) := rfl
    rw [hstep, ih]
    by_cases hm : name ∈ ps.map Prod.fst
    · rw [if_pos hm, if_pos (by simp [hm])]
    · rw [if_neg hm]
      by_cases hp : name = p.1
      · subst hp
        rw [lookup_setKey_self, if_pos (by simp)]
      · rw [lookup_setKey_ne st.1 p.1 name (net p.1) hp, if_neg ?_]
        intro hmem
        rw [List.map_cons] at hmem
        rcases List.mem_cons.mp hmem with h1 | h1
        · exact hp h1
        · exact hm h1

theorem collect_cache_lookup (net : String → ResVal) :
    ∀ (ord : List (String × String)) (st : List (String × ResVal) × Cache)
      (name : String),
      List.lookup name (collectLoop net ord st).2 =
        if name ∈ ord.map Prod.fst ∧ cacheCond (net name) = true then
          some ⟨(net name).svg, (net name).elapsed⟩
        else List.lookup name st.2 := by
  intro ord
  induction ord with
  | nil =>
    intro st name
    simp [collectLoop]
  | cons p ps ih =>
    intro st name
    have hstep : collectLoop net (p :: ps) st =
        collectLoop net ps (setKey st.1 p.1 (net p.1),
          if cacheCond (net p.1) then
            setKey st.2 p.1 ⟨(net p.1).svg, (net p.1).elapsed⟩
          else st.2) := rfl
    by_cases hc : cacheCond (net p.1) = true
    · rw [if_pos hc] at hstep
      rw [hstep, ih]
      by_cases hp : name = p.1
      · subst hp
        by_cases hm : p.1 ∈ ps.map Prod.fst
        · rw [if_pos ⟨hm, hc⟩, if_pos ⟨by simp [hm], hc⟩]
        · rw [if_neg (fun hx => hm hx.1), lookup_setKey_self,
            if_pos ⟨by simp, hc⟩]
      · rw [lookup_setKey_ne st.2 p.1 name _ hp]
        by_cases hcond : name ∈ ps.map Prod.fst ∧ cacheCond (net name) = true
        · rw [if_pos hcond, if_pos ⟨by simp [hcond.1], hcond.2⟩]
        · rw [if_neg hcond, if_neg ?_]
          rintro ⟨hmem, hq⟩
          rw [List.map_cons] at hmem
          rcases List.mem_cons.mp hmem with h1 | h1
          · exact hp h1
          · exact hcond ⟨h1, hq⟩
    · rw [if_neg hc] at hstep
      rw [hstep, ih]
      by_cases hcond : name ∈ ps.map Prod.fst ∧ cacheCond (net name) = true
      · rw [if_pos hcond, if_pos ⟨by simp [hcond.1], hcond.2⟩]
      · rw [if_neg hcond, if_neg ?_]
        rintro ⟨hmem, hq⟩
        rw [List.map_cons] at hmem
        rcases List.mem_cons.mp hmem with h1 | h1
        · exact hc (h1 ▸ hq)
        · exact hcond ⟨h1, hq⟩

theorem collect_results_fresh (net : String → ResVal) :
    ∀ (ord : List (String × String)) (st : List (String × ResVal) × Cache),
      (∀ p ∈ ord, p.1 ∉ st.1.map Prod.fst) →
      (ord.map Prod.fst).Nodup →
      (collectLoop net ord st).1 = st.1 ++ ord.map (fun p => (p.1, net p.1)) := by
  intro ord
  induction ord with
  | nil =>
    intro st h hn
    simp [collectLoop]
  | cons p ps ih =>
    intro st h hn
    have hstep : collectLoop net (p :: ps) st =
        collectLoop net ps (setKey st.1 p.1 (net p.1),
          if cacheCond (net p.1) then
            setKey st.2 p.1 ⟨(net p.1).svg, (net p.1).elapsed⟩
          else st.2) := rfl
    have hset : setKey st.1 p.1 (net p.1) = st.1 ++ [(p.1, net p.1)] :=
      setKey_append st.1 p.1 (net p.1) (h p (List.mem_cons_self p ps))
    rw [List.map_cons] at hn
    rcases List.nodup_cons.mp hn with ⟨hph, hpn⟩
    rw [hstep, ih]
    · rw [hset]
      simp [List.append_assoc]
    · intro q hq hqmem
      rw [hset] at hqmem
      rw [List.map_append] at hqmem
      rcases List.mem_append.mp hqmem with h1 | h1
      · exact h q (List.mem_cons_of_mem p hq) h1
      · have hq1 : q.1 = p.1 := by
          simpa using h1
        exact hph (hq1 ▸ List.mem_map.mpr ⟨q, hq, rfl⟩)
    · exact hpn

theorem to_call_keys_nodup (cache : Cache) :
    ((to_call cache).map Prod.fst).Nodup := by
  rw [to_call_eq]
  exact List.Nodup.sublist
    (List.Sublist.map Prod.fst (List.filter_sublist model_map))
    model_names_nodup

theorem runMain_results_eq (cache : Cache) (net : String → ResVal)
    (ord : List (String × String)) (hperm : ord.Perm (to_call cache)) :
    (runMain cache net ord).results =
      cachedResults cache ++ ord.map (fun p => (p.1, net p.1)) := by
  unfold runMain
  by_cases he : (partitionModels cache).2.isEmpty = true
  · rw [if_pos he]
    have htc : to_call cache = [] := by
      unfold to_call
      exact List.isEmpty_iff.mp he
    have hord : ord = [] := by
      rw [htc] at hperm
      exact List.perm_nil.mp hperm
    subst hord
    simp [cachedResults]
  · rw [if_neg he]
    show (collectLoop net ord ((partitionModels cache).1, cache)).1 = _
    have hdisj : ∀ p ∈ ord,
        p.1 ∉ ((partitionModels cache).1).map Prod.fst := by
      intro p hp hmem
      have hp2 : p ∈ to_call cache := hperm.subset hp
      have hb : p.1 ∈ (to_call cache).map Prod.fst :=
        List.mem_map.mpr ⟨p, hp2, rfl⟩
      have hmiss := (mem_to_call_keys cache p.1).mp hb
      have hhit := (mem_cachedResults_keys cache p.1).mp hmem
      rw [hmiss.2] at hhit
      exact Bool.noConfusion hhit.2
    have hnodup : (ord.map Prod.fst).Nodup :=
      ((hperm.map Prod.fst).nodup_iff).mpr (to_call_keys_nodup cache)
    rw [collect_results_fresh net ord ((partitionModels cache).1, cache)
      hdisj hnodup]
    rfl

theorem runMain_results_lookup (cache : Cache) (net : String → ResVal)
    (ord : List (String × String)) (hperm : ord.Perm (to_call cache))
    (name : String) :
    List.lookup name (runMain cache net ord).results =
      if name ∈ (to_call cache).map Prod.fst then some (net name)
      else List.lookup name (cachedResults cache) := by
  have hmm : (name ∈ ord.map Prod.fst) ↔
      (name ∈ (to_call cache).map Prod.fst) := (hperm.map Prod.fst).mem_iff
  unfold runMain
  by_cases he : (partitionModels cache).2.isEmpty = true
  · rw [if_pos he]
    have htc : to_call cache = [] := by
      unfold to_call
      exact List.isEmpty_iff.mp he
    rw [if_neg (by rw [htc]; simp)]
    rfl
  · rw [if_neg he]
    show List.lookup name
      (collectLoop net ord ((partitionModels cache).1, cache)).1 = _
    rw [collect_results_lookup]
    by_cases hm : name ∈ (to_call cache).map Prod.fst
    · rw [if_pos (hmm.mpr hm), if_pos hm]
    · rw [if_neg (fun hx => hm (hmm.mp hx)), if_neg hm]
      rfl

theorem runMain_cache_lookup (cache : Cache) (net : String → ResVal)
    (ord : List (String × String)) (hperm : ord.Perm (to_call cache))
    (name : String) :
    List.lookup name (runMain cache net ord).cacheOut =
      if name ∈ (to_call cache).map Prod.fst ∧ cacheCond (net name) = true then
        some ⟨(net name).svg, (net name).elapsed⟩
      else List.lookup name cache := by
  have hmm : (name ∈ ord.map Prod.fst) ↔
      (name ∈ (to_call cache).map Prod.fst) := (hperm.map Prod.fst).mem_iff
  unfold runMain
  by_cases he : (partitionModels cache).2.isEmpty = true
  · rw [if_pos he]
    have htc : to_call cache = [] := by
      unfold to_call
      exact List.isEmpty_iff.mp he
    rw [if_neg (by rw [htc]; simp)]
  · rw [if_neg he]
    show List.lookup name
      (collectLoop net ord ((partitionModels cache).1, cache)).2 = _
    rw [collect_cache_lookup]
    by_cases hm : name ∈ (to_call cache).map Prod.fst ∧
        cacheCond (net name) = true
    · rw [if_pos ⟨hmm.mpr hm.1, hm.2⟩, if_pos hm]
    · rw [if_neg (fun hx => hm ⟨hmm.mp hx.1, hx.2⟩), if_neg hm]

theorem runMain_saved_eq (cache : Cache) (net : String → ResVal)
    (ord : List (String × String)) :
    (runMain cache net ord).saved = !(to_call cache).isEmpty := by
  unfold runMain to_call
  by_cases he : (partitionModels cache).2.isEmpty = true
  · rw [if_pos he, he]
    rfl
  · rw [if_neg he]
    rw [Bool.not_eq_true] at he
    rw [he]
    rfl

/-! ## Characterisation of the report builder -/

theorem build_cards_fold (results : List (String × ResVal)) :
    ∀ (names : List String) (acc : List Card),
      names.foldl (fun acc name =>
        match List.lookup name results with
        | none => acc
        | some r => acc ++ [mkCard name r]) acc =
      acc ++ names.filterMap (fun n =>
        (List.lookup n results).map (mkCard n)) := by
  intro names
  induction names with
  | nil =>
    intro acc
    simp
  | cons n ns ih =>
    intro acc
    rw [List.foldl_cons]
    cases h : List.lookup n results with
    | none =>
      simp only [h]
      rw [ih]
      simp [h]
    | some r =>
      simp only [h]
      rw [ih]
      simp [h, List.filterMap_cons]

theorem build_cards_eq (results : List (String × ResVal)) (names : List String) :
    build_cards results names =
      names.filterMap (fun n => (List.lookup n results).map (mkCard n)) := by
  unfold build_cards
  rw [build_cards_fold]
  simp

theorem build_sections_fold (results : List (String × ResVal)) :
    ∀ (cats : List (String × List String)) (acc : List (String × List Card)),
      cats.foldl (fun acc c => acc ++ [(c.1, build_cards results c.2)]) acc =
        acc ++ cats.map (fun c => (c.1, build_cards results c.2)) := by
  intro cats
  induction cats with
  | nil =>
    intro acc
    simp
  | cons c cs ih =>
    intro acc
    rw [List.foldl_cons, ih]
    simp

theorem build_sections_eq (results : List (String × ResVal)) :
    build_sections results = orderedReportSpec results := by
  unfold build_sections orderedReportSpec
  rw [build_sections_fold]
  simp [build_cards_eq]

theorem mkCard_name (name : String) (r : ResVal) : (mkCard name r).name = name := by
  unfold mkCard
  by_cases h : strTruthy r.error = true
  · rw [if_pos h]
  · rw [if_neg h]

theorem models_covered :
    ∀ name ∈ model_map.map Prod.fst, name ∈ allCategoryNames := by decide

theorem countP_isNone_sub (net : String → ResVal) (l : List (String × String)) :
    l.countP (fun p => ((net p.1).error).isNone) =
      l.length - l.countP (fun p => ((net p.1).error).isSome) := by
  induction l with
  | nil => rfl
  | cons q qs ih =>
    have hle : qs.countP (fun p => ((net p.1).error).isSome) ≤ qs.length :=
      List.countP_le_length _
    cases ho : (net q.1).error with
    | none =>
      simp [List.countP_cons, ho]
      omega
    | some e =>
      simp [List.countP_cons, ho]
      omega

/-! ## Claims about the orchestration -/

/-- C2: a cache entry exists only for a model whose call returned extractable
(truthy) SVG output with no error, either on this run or a previous one; a
model already hitting the cache is never re-attempted, and a failed fresh
call neither creates nor evicts a cache entry. -/
theorem c2_cache_success_invariant :
    ∀ (cache : Cache) (net : String → ResVal) (ord : List (String × String)),
      ord.Perm (to_call cache) →
      ((∀ name, isHit cache name = true →
          name ∉ (to_call cache).map Prod.fst)
      ∧ (∀ name e,
          List.lookup name (runMain cache net ord).cacheOut = some e →
          List.lookup name cache = some e ∨
            (cacheCond (net name) = true ∧
              e = ⟨(net name).svg, (net name).elapsed⟩))
      ∧ (∀ name, name ∈ (to_call cache).map Prod.fst →
          cacheCond (net name) = false →
          List.lookup name (runMain cache net ord).cacheOut =
            List.lookup name cache)) := by
  intro cache net ord hperm
  refine ⟨?_, ?_, ?_⟩
  · intro name hhit hmem
    have h := (mem_to_call_keys cache name).mp hmem
    rw [hhit] at h
    exact Bool.noConfusion h.2
  · intro name e he
    rw [runMain_cache_lookup cache net ord hperm name] at he
    by_cases h : name ∈ (to_call cache).map Prod.fst ∧
        cacheCond (net name) = true
    · rw [if_pos h] at he
      exact Or.inr ⟨h.2, (Option.some_inj.mp he).symm⟩
    · rw [if_neg h] at he
      exact Or.inl he
  · intro name hmem hcond
    rw [runMain_cache_lookup cache net ord hperm name]
    rw [if_neg ?_]
    rintro ⟨-, hc⟩
    rw [hcond] at hc
    exact Bool.noConfusion hc

theorem c2_cache_success_invariant_witness :
    List.lookup "GPT-5"
      (runMain [] (fun _ => ⟨none, 1, some (("boom").data)⟩)
        (to_call [])).cacheOut =
      List.lookup "GPT-5" ([] : Cache) :=
  (c2_cache_success_invariant [] (fun _ => ⟨none, 1, some (("boom").data)⟩)
    (to_call []) (List.Perm.refl _)).2.2 "GPT-5" (by decide) (by decide)

/-- C5: the report totals are the size of the merged result map and the
number of its entries with a null error; of the N dispatched calls exactly
the failed ones lack a null error, so the success count is the cached-hit
count plus N minus the number K of failures, every dispatched name receives
a card somewhere in the report, and when no model was cached the totals are
exactly N and N - K. -/
theorem c5_report_totals :
    ∀ (cache : Cache) (net : String → ResVal) (ord : List (String × String)),
      ord.Perm (to_call cache) →
      (report_total (runMain cache net ord).results =
          (cachedResults cache).length + (to_call cache).length
      ∧ report_success (runMain cache net ord).results =
          (cachedResults cache).length + ((to_call cache).length -
            (to_call cache).countP (fun p => ((net p.1).error).isSome))
      ∧ (∀ name, name ∈ (to_call cache).map Prod.fst →
          ∃ sec, sec ∈ build_sections (runMain cache net ord).results ∧
            ∃ card, card ∈ sec.2 ∧ card.name = name)
      ∧ ((∀ p, p ∈ model_map → isHit cache p.1 = false) →
          report_total (runMain cache net ord).results =
              (to_call cache).length
          ∧ report_success (runMain cache net ord).results =
              (to_call cache).length -
                (to_call cache).countP (fun p => ((net p.1).error).isSome))) := by
  intro cache net ord hperm
  have hres := runMain_results_eq cache net ord hperm
  have htot : report_total (runMain cache net ord).results =
      (cachedResults cache).length + (to_call cache).length := by
    rw [report_total, hres, List.length_append, List.length_map,
      hperm.length_eq]
  have hsucc : report_success (runMain cache net ord).results =
      (cachedResults cache).length + ((to_call cache).length -
        (to_call cache).countP (fun p => ((net p.1).error).isSome)) := by
    rw [report_success, hres, List.countP_append]
    have h1 : (cachedResults cache).countP (fun p => (p.2.error).isNone) =
        (cachedResults cache).length := by
      rw [List.countP_eq_length]
      intro q hq
      rw [cachedResults_error_none cache q hq]
      rfl
    have h2 : (ord.map (fun p => (p.1, net p.1))).countP
        (fun p => (p.2.error).isNone) =
        ord.countP (fun p => ((net p.1).error).isNone) := by
      rw [List.countP_map]
      rfl
    have h3 : ord.countP (fun p => ((net p.1).error).isNone) =
        (to_call cache).countP (fun p => ((net p.1).error).isNone) :=
      hperm.countP_eq _
    rw [h1, h2, h3, countP_isNone_sub]
  refine ⟨htot, hsucc, ?_, ?_⟩
  · intro name hname
    have hlook : List.lookup name (runMain cache net ord).results =
        some (net name) := by
      rw [runMain_results_lookup cache net ord hperm name, if_pos hname]
    have hmm : name ∈ model_map.map Prod.fst :=
      ((mem_to_call_keys cache name).mp hname).1
    have hcat : name ∈ allCategoryNames := models_covered name hmm
    unfold allCategoryNames at hcat
    rcases List.mem_flatten.mp hcat with ⟨s, hs, hns⟩
    rcases List.mem_map.mp hs with ⟨c, hc, rfl⟩
    refine ⟨(c.1, c.2.filterMap (fun n =>
      (List.lookup n (runMain cache net ord).results).map (mkCard n))), ?_, ?_⟩
    · rw [build_sections_eq]
      unfold orderedReportSpec
      exact List.mem_map.mpr ⟨c, hc, rfl⟩
    · refine ⟨mkCard name (net name), ?_, mkCard_name name (net name)⟩
      refine List.mem_filterMap.mpr ⟨name, hns, ?_⟩
      rw [hlook]
      rfl
  · intro hnc
    have hcr : cachedResults cache = [] := by
      rw [cachedResults_eq]
      rw [List.filterMap_eq_nil_iff]
      intro p hp
      rw [if_neg ?_]
      intro hx
      rw [hnc p hp] at hx
      exact Bool.noConfusion hx
    constructor
    · rw [htot, hcr]
      simp
    · rw [hsucc, hcr]
      simp

theorem c5_report_totals_witness :
    report_total (runMain [] (fun _ => ⟨none, 1, some (("x").data)⟩)
        (to_call [])).results =
      (cachedResults []).length + (to_call []).length :=
  (c5_report_totals [] (fun _ => ⟨none, 1, some (("x").data)⟩)
    (to_call []) (List.Perm.refl _)).1

/-- C6: the report builder walks categories in declaration order and display
names in category order; a display name absent from the merged result map
produces no card, and the displayed totals are functions of the result map
alone, so an absent name changes neither the total nor the success count. -/
theorem c6_report_iteration :
    ∀ (results : List (String × ResVal)) (name : String),
      List.lookup name results = none →
      (build_sections results = orderedReportSpec results
      ∧ (∀ sec, sec ∈ build_sections results →
          ∀ card, card ∈ sec.2 → card.name ≠ name)
      ∧ report_total results = results.length
      ∧ report_success results =
          results.countP (fun p => (p.2.error).isNone)) := by
  intro results name hnone
  refine ⟨build_sections_eq results, ?_, rfl, rfl⟩
  intro sec hsec card hcard
  rw [build_sections_eq] at hsec
  unfold orderedReportSpec at hsec
  rcases List.mem_map.mp hsec with ⟨c, hc, rfl⟩
  rcases List.mem_filterMap.mp hcard with ⟨n, hn, hf⟩
  rcases Option.map_eq_some'.mp hf with ⟨r, hr, rfl⟩
  rw [mkCard_name]
  intro hx
  rw [hx, hnone] at hr
  exact Option.noConfusion hr

theorem c6_report_iteration_witness :
    build_sections [("Claude Opus 4.6",
        (⟨some (("<svg/>").data), 1, none⟩ : ResVal))] =
      orderedReportSpec [("Claude Opus 4.6",
        (⟨some (("<svg/>").data), 1, none⟩ : ResVal))] :=
  (c6_report_iteration [("Claude Opus 4.6", ⟨some (("<svg/>").data), 1, none⟩)]
    "Absent Model" (by decide)).1

/-- C7: the run never aborts on a per-model failure: `runMain` is a total
function whose result map contains an entry for every model in the table;
every per-model outcome (timeout, non-2xx, malformed body, missing SVG) is
captured as the data of its own call result, and changing one model's
outcome never changes a sibling's entry, so failures surface only in the
report and console text while the process terminates normally (exit 0). -/
theorem c7_errors_contained :
    ∀ (cache : Cache) (outs : String → HttpOutcome) (els : String → Nat)
      (ord : List (String × String)), ord.Perm (to_call cache) →
      ((∀ name, name ∈ model_map.map Prod.fst →
          List.lookup name
            (runMain cache (fun n => call_model (outs n) (els n)) ord).results
            ≠ none)
      ∧ (∀ name, name ∈ (to_call cache).map Prod.fst →
          List.lookup name
            (runMain cache (fun n => call_model (outs n) (els n)) ord).results
            = some (call_model (outs name) (els name)))
      ∧ (∀ (outs' : String → HttpOutcome) (els' : String → Nat)
            (name : String),
          (∀ m, m ≠ name → outs' m = outs m) →
          (∀ m, m ≠ name → els' m = els m) →
          ∀ m, m ∈ model_map.map Prod.fst → m ≠ name →
            List.lookup m (runMain cache
              (fun n => call_model (outs' n) (els' n)) ord).results =
            List.lookup m (runMain cache
              (fun n => call_model (outs n) (els n)) ord).results)) := by
  intro cache outs els ord hperm
  refine ⟨?_, ?_, ?_⟩
  · intro name hname
    rw [runMain_results_lookup cache _ ord hperm name]
    by_cases hm : name ∈ (to_call cache).map Prod.fst
    · rw [if_pos hm]
      exact fun hx => Option.noConfusion hx
    · rw [if_neg hm]
      have hhit : isHit cache name = true := by
        by_contra hc
        rw [Bool.not_eq_true] at hc
        exact hm ((mem_to_call_keys cache name).mpr ⟨hname, hc⟩)
      rw [lookup_cachedResults cache name, if_pos ⟨hname, hhit⟩]
      exact fun hx => Option.noConfusion hx
  · intro name hname
    rw [runMain_results_lookup cache _ ord hperm name, if_pos hname]
  · intro outs' els' name houts hels m hmem hne
    rw [runMain_results_lookup cache _ ord hperm m,
      runMain_results_lookup cache _ ord hperm m]
    rw [houts m hne, hels m hne]

theorem c7_errors_contained_witness :
    List.lookup "GPT-5"
      (runMain [] (fun n => call_model ((fun _ => HttpOutcome.exn (("t").data)) n)
        ((fun _ => 1) n)) (to_call [])).results =
      some (call_model (HttpOutcome.exn (("t").data)) 1) :=
  (c7_errors_contained [] (fun _ => HttpOutcome.exn (("t").data)) (fun _ => 1)
    (to_call []) (List.Perm.refl _)).2.1 "GPT-5" (by decide)

/-- C8: the cache is saved at most once per run, exactly when at least one
model was not already cached; a run with every model cached performs no save
and leaves the store untouched, and when a save happens the store holds the
entire updated mapping: every old entry, overwritten only at freshly
successful keys. -/
theorem c8_single_save :
    ∀ (cache : Cache) (net : String → ResVal) (ord : List (String × String)),
      ord.Perm (to_call cache) →
      (((runMain cache net ord).saved = true ↔ to_call cache ≠ [])
      ∧ ((runMain cache net ord).saved = false →
          (runMain cache net ord).cacheOut = cache)
      ∧ (∀ name, List.lookup name (runMain cache net ord).cacheOut =
          if name ∈ (to_call cache).map Prod.fst ∧ cacheCond (net name) = true
          then some ⟨(net name).svg, (net name).elapsed⟩
          else List.lookup name cache)) := by
  intro cache net ord hperm
  refine ⟨?_, ?_, fun name => runMain_cache_lookup cache net ord hperm name⟩
  · rw [runMain_saved_eq]
    constructor
    · intro h hx
      rw [hx] at h
      simp at h
    · intro h
      cases htc : to_call cache with
      | nil => exact absurd htc h
      | cons a as => rfl
  · intro h
    rw [runMain_saved_eq] at h
    have he : (partitionModels cache).2.isEmpty = true := by
      cases hb : (to_call cache).isEmpty with
      | true => exact hb
      | false =>
        rw [hb] at h
        exact Bool.noConfusion h
    unfold runMain
    rw [if_pos he]

theorem c8_single_save_witness :
    (runMain [] (fun _ => ⟨none, 1, some (("e").data)⟩) (to_call [])).saved =
      true :=
  ((c8_single_save [] (fun _ => ⟨none, 1, some (("e").data)⟩) (to_call [])
    (List.Perm.refl _)).1).mpr (by decide)

/-- C10: a model whose cache entry is missing, or whose `svg` field is
missing, empty, or otherwise falsy, is not a cache hit: it lands in the
needs-call set; only an entry with a non-empty svg string counts as a hit
and bypasses the network call. -/
theorem c10_falsy_entry_not_hit :
    ∀ (cache : Cache) (name : String), name ∈ model_map.map Prod.fst →
      ((name ∈ (to_call cache).map Prod.fst ↔ isHit cache name = false)
      ∧ (isHit cache name = true ↔
          ∃ e s, List.lookup name cache = some e ∧ e.svg = some s ∧
            s ≠ [])) := by
  intro cache name hmem
  constructor
  · rw [mem_to_call_keys]
    constructor
    · exact fun h => h.2
    · exact fun h => ⟨hmem, h⟩
  · unfold isHit
    cases hl : List.lookup name cache with
    | none => simp
    | some e =>
      cases he : e.svg with
      | none => simp [strTruthy, he]
      | some s =>
        show strTruthy e.svg = true ↔ _
        rw [he]
        constructor
        · intro h
          refine ⟨e, s, rfl, he, ?_⟩
          intro hx
          rw [hx] at h
          simp [strTruthy] at h
        · rintro ⟨e2, s2, he2, hs2, hne⟩
          have hee : e = e2 := Option.some_inj.mp he2
          subst hee
          rw [he] at hs2
          have hss : s = s2 := Option.some_inj.mp hs2
          subst hss
          cases s with
          | nil => exact absurd rfl hne
          | cons a as => rfl

theorem c10_falsy_entry_not_hit_witness :
    "GPT-5" ∈ (to_call [("GPT-5",
      (⟨some ([] : List Char), 3⟩ : CacheEntry))]).map Prod.fst :=
  ((c10_falsy_entry_not_hit [("GPT-5", ⟨some ([] : List Char), 3⟩)] "GPT-5"
    (by decide)).1).mpr (by decide)
